import Mathlib

/-!
Verification of the builtin document-synthesis engine of `edgar_report`
(`src/edgar_report/pdf.py`) against its natural-language specification.

The Python source is shallowly embedded: strings and byte buffers are
`List Char` (one entry per byte/character; all format scaffolding emitted by
the engine is ASCII), Python's sequential `str.replace` passes are modelled by
a fuel-indexed scanner `pyReplaceGo`, `str.splitlines` / `str.strip` /
`str.lstrip` by the corresponding character-level functions below, and the
mutable page/cursor state of the pagination pass by an explicit `LayoutState`
threaded through structural recursion.
-/

namespace EdgarReport

/-- Python `s.startswith(pat)` on character lists; second argument is the
pattern. -/
def startsWithL : List Char → List Char → Bool
  | _, [] => true
  | [], _ :: _ => false
  | c :: cs, p :: ps => c == p && startsWithL cs ps

/-- Fuel-indexed body of Python `str.replace`: scan left to right, replacing
each non-overlapping occurrence of `pat` by `repl`.  With `fuel = s.length`
and a nonempty pattern this is exactly one full scan of `s`. -/
def pyReplaceGo (pat repl : List Char) : Nat → List Char → List Char
  | _, [] => []
  | 0, s => s
  | fuel + 1, c :: rest =>
      if startsWithL (c :: rest) pat then
        repl ++ pyReplaceGo pat repl fuel ((c :: rest).drop pat.length)
      else
        c :: pyReplaceGo pat repl fuel rest

/-- Python `s.replace(pat, repl)` (for the nonempty patterns the source
uses). -/
def pyReplace (pat repl s : List Char) : List Char :=
  pyReplaceGo pat repl s.length s

/-- Characters Python's `str.strip()` removes (the whitespace characters that
can occur in the engine's inputs). -/
def pyIsSpace (c : Char) : Bool :=
  c = ' ' || c = '\t' || c = '\n' || c = '\r' || c = '\x0b' || c = '\x0c' ||
  c = '\x1c' || c = '\x1d' || c = '\x1e' || c = '\x1f' || c = '\x85' || c = '\xa0'

/-- Python `s.strip()`: drop whitespace from both ends. -/
def pyStrip (s : List Char) : List Char :=
  ((s.dropWhile pyIsSpace).reverse.dropWhile pyIsSpace).reverse

/-- Line-boundary characters recognised by Python `str.splitlines` (`\r\n` is
additionally treated as a single boundary). -/
def isLineSep (c : Char) : Bool :=
  c = '\n' || c = '\r' || c = '\x0b' || c = '\x0c' ||
  c = '\x1c' || c = '\x1d' || c = '\x1e' || c = '\x85' ||
  c = '\u2028' || c = '\u2029'

/-- Accumulator pass of Python `str.splitlines` (`cur` holds the current line
reversed).  A trailing line terminator does not open a new empty line. -/
def splitlinesGo (cur : List Char) : List Char → List (List Char)
  | [] => if cur.isEmpty then [] else [cur.reverse]
  | '\r' :: '\n' :: rest => cur.reverse :: splitlinesGo [] rest
  | c :: rest =>
      if isLineSep c then cur.reverse :: splitlinesGo [] rest
      else splitlinesGo (c :: cur) rest

/-- Python `s.splitlines()`. -/
def pySplitlines (s : List Char) : List (List Char) :=
  splitlinesGo [] s

/-- Number of lines of the input, counting blank lines: the length of
`splitlines` (so the empty string has zero lines and a trailing newline does
not add one). -/
def lineCount (s : List Char) : Nat :=
  (pySplitlines s).length

/-- `_clean_inline_markdown`: strip inline emphasis markers, then trim.  The
source performs `replace("**","")`, `replace("__","")`, `` replace("`","") ``,
then `replace("***","")`, then `strip()`. -/
def cleanInlineMarkdown (s : List Char) : List Char :=
  pyStrip (pyReplace ("***".toList) []
    (pyReplace ("`".toList) []
      (pyReplace ("__".toList) []
        (pyReplace ("**".toList) [] s))))

/-- Python `s.lstrip("# ")`: drop leading characters from the set `{#, ' '}`. -/
def lstripHashSpace (s : List Char) : List Char :=
  s.dropWhile (fun c => c = '#' || c = ' ')

/-- One iteration of the classifier loop in `_parse_analysis_blocks`, applied
to the already-stripped line.  Blocks are `(tag, text)` pairs exactly as in
the source (`"space"`, `"heading"`, `"bullet"`, `"paragraph"`). -/
def classifyLine (stripped : List Char) : String × List Char :=
  if stripped.isEmpty then ("space", [])
  else if startsWithL stripped ("###".toList) then
    ("heading", cleanInlineMarkdown (lstripHashSpace stripped))
  else if startsWithL stripped ("##".toList) then
    ("heading", cleanInlineMarkdown (lstripHashSpace stripped))
  else if startsWithL stripped ("#".toList) then
    ("heading", cleanInlineMarkdown (lstripHashSpace stripped))
  else if startsWithL stripped ("- ".toList) || startsWithL stripped ("* ".toList) then
    ("bullet", cleanInlineMarkdown (stripped.drop 2))
  else
    ("paragraph", cleanInlineMarkdown stripped)

/-- `_parse_analysis_blocks`: split on line boundaries, strip each raw line,
classify. -/
def parseAnalysisBlocks (analysisText : List Char) : List (String × List Char) :=
  (pySplitlines analysisText).map (fun rawLine => classifyLine (pyStrip rawLine))

/-! ### Content-stream escaping (`_esc`, `PageCanvas.text`, `build_stream`) -/

/-- Single-character replacement pass: the special case of `pyReplace` whose
pattern is one character. -/
def replOne (c : Char) (repl : List Char) : List Char → List Char
  | [] => []
  | d :: rest => (if d = c then repl else [d]) ++ replOne c repl rest

/-- `_esc`: `s.replace("\\", "\\\\").replace("(", "\\(").replace(")", "\\)")`. -/
def esc (s : List Char) : List Char :=
  pyReplace [')'] ['\\', ')']
    (pyReplace ['('] ['\\', '(']
      (pyReplace ['\\'] ['\\', '\\'] s))

/-- Character-level description of the escaping: backslash and the two
parenthesis characters gain a leading backslash, every other character passes
through unchanged. -/
def escChar (c : Char) : List Char :=
  if c = '\\' then ['\\', '\\']
  else if c = '(' then ['\\', '(']
  else if c = ')' then ['\\', ')']
  else [c]

/-- The escaping applied characterwise. -/
def escSpec : List Char → List Char
  | [] => []
  | c :: s => escChar c ++ escSpec s

/-- Inverse of the escaping: a backslash followed by one of `\\`, `(`, `)`
decodes to that character. -/
def unesc : List Char → List Char
  | [] => []
  | c :: rest =>
      if c = '\\' then
        match rest with
        | [] => ['\\']
        | e :: rest2 =>
            if e = '\\' || e = '(' || e = ')' then e :: unesc rest2
            else '\\' :: unesc (e :: rest2)
      else c :: unesc rest

/-- `build_stream`'s `encode("latin-1", errors="replace")`: characters outside
the single-byte range are replaced by `?`. -/
def latin1Encode (s : List Char) : List Char :=
  s.map (fun c => if c.toNat ≤ 255 then c else '?')

/-- The show-text operator line emitted by `PageCanvas.text` for a given
content string: `( <escaped content> ) Tj`. -/
def tjLine (content : List Char) : List Char :=
  '(' :: esc content ++ (") Tj").toList

/-- The five instruction lines `PageCanvas.text(x, y, size, content)` appends. -/
def textOpLines (x y : Int) (size : Nat) (content : List Char) : List (List Char) :=
  [("BT").toList,
   ("/F1 " ++ toString size ++ " Tf").toList,
   (toString x ++ " " ++ toString y ++ " Td").toList,
   tjLine content,
   ("ET").toList]

theorem pyReplaceGo_one (c : Char) (repl : List Char) :
    ∀ fuel s, s.length ≤ fuel → pyReplaceGo [c] repl fuel s = replOne c repl s := by
  intro fuel
  induction fuel with
  | zero =>
    intro s hs
    cases s with
    | nil => simp [pyReplaceGo, replOne]
    | cons d rest => simp at hs
  | succ n ih =>
    intro s hs
    cases s with
    | nil => simp [pyReplaceGo, replOne]
    | cons d rest =>
      have hrest : rest.length ≤ n := by
        simpa using Nat.le_of_succ_le_succ hs
      by_cases hd : d = c
      · subst hd
        have h1 : startsWithL (d :: rest) [d] = true := by
          simp [startsWithL]
        have h2 : (d :: rest).drop ([d].length) = rest := by simp
        simp only [pyReplaceGo, h1, if_true, h2, replOne, if_pos rfl]
        rw [ih rest hrest]
      · have h1 : startsWithL (d :: rest) [c] = false := by
          simp [startsWithL, hd]
        simp only [pyReplaceGo, h1, Bool.false_eq_true, if_false, replOne, if_neg hd]
        rw [ih rest hrest]
        rfl

theorem pyReplace_one (c : Char) (repl s : List Char) :
    pyReplace [c] repl s = replOne c repl s :=
  pyReplaceGo_one c repl s.length s le_rfl

theorem replOne_append (c : Char) (repl : List Char) (s t : List Char) :
    replOne c repl (s ++ t) = replOne c repl s ++ replOne c repl t := by
  induction s with
  | nil => simp [replOne]
  | cons d rest ih => simp [replOne, ih]

theorem esc_replOne (t : List Char) :
    esc t = replOne ')' ['\\', ')'] (replOne '(' ['\\', '('] (replOne '\\' ['\\', '\\'] t)) := by
  simp [esc, pyReplace_one]

/-- Unfolding `_esc` one character at a time. -/
theorem esc_cons (d : Char) (rest : List Char) :
    esc (d :: rest) = escChar d ++ esc rest := by
  rw [esc_replOne, esc_replOne]
  by_cases h1 : d = '\\'
  · subst h1; simp [replOne, replOne_append, escChar]
  · by_cases h2 : d = '('
    · subst h2; simp [replOne, replOne_append, escChar]
    · by_cases h3 : d = ')'
      · subst h3; simp [replOne, replOne_append, escChar]
      · simp [replOne, replOne_append, escChar, h1, h2, h3]

/-- The three sequential replacement passes of `_esc` compose to the
characterwise escaping. -/
theorem esc_eq_escSpec (s : List Char) : esc s = escSpec s := by
  induction s with
  | nil => simp [esc, pyReplace_one, replOne, escSpec]
  | cons d rest ih => rw [esc_cons, ih]; simp [escSpec]

theorem unesc_cons_of_ne (c : Char) (l : List Char) (h : c ≠ '\\') :
    unesc (c :: l) = c :: unesc l := by
  rw [unesc.eq_def]
  simp [h]

/-- Round trip: unescaping undoes the escaping characterwise. -/
theorem unesc_esc (s : List Char) : unesc (esc s) = s := by
  induction s with
  | nil => simp [esc, pyReplace_one, replOne, unesc]
  | cons d rest ih =>
    rw [esc_cons]
    by_cases h1 : d = '\\'
    · subst h1
      have : escChar '\\' ++ esc rest = '\\' :: '\\' :: esc rest := by simp [escChar]
      rw [this]
      simp only [unesc]
      simp [ih]
    · by_cases h2 : d = '('
      · subst h2
        have : escChar '(' ++ esc rest = '\\' :: '(' :: esc rest := by simp [escChar]
        rw [this]
        simp only [unesc]
        simp [ih]
      · by_cases h3 : d = ')'
        · subst h3
          have : escChar ')' ++ esc rest = '\\' :: ')' :: esc rest := by simp [escChar]
          rw [this]
          simp only [unesc]
          simp [ih]
        · have : escChar d ++ esc rest = d :: esc rest := by simp [escChar, h1, h2, h3]
          rw [this, unesc_cons_of_ne d _ h1, ih]

theorem escSpec_mem_le (s : List Char) (h : ∀ c ∈ s, c.toNat ≤ 255) :
    ∀ c ∈ escSpec s, c.toNat ≤ 255 := by
  induction s with
  | nil => simp [escSpec]
  | cons d rest ih =>
    intro c hc
    simp only [escSpec, List.mem_append] at hc
    rcases hc with hc | hc
    · have hd : d.toNat ≤ 255 := h d (by simp)
      by_cases h1 : d = '\\'
      · subst h1; simp [escChar] at hc
        rcases hc with rfl | rfl
        all_goals decide
      · by_cases h2 : d = '('
        · subst h2; simp [escChar] at hc
          rcases hc with rfl | rfl
          all_goals decide
        · by_cases h3 : d = ')'
          · subst h3; simp [escChar] at hc
            rcases hc with rfl | rfl
            all_goals decide
          · simp [escChar, h1, h2, h3] at hc
            subst hc; exact hd
    · exact ih (fun c hc => h c (by simp [hc])) c hc

theorem latin1Encode_of_le (s : List Char) (h : ∀ c ∈ s, c.toNat ≤ 255) :
    latin1Encode s = s := by
  induction s with
  | nil => simp [latin1Encode]
  | cons d rest ih =>
    simp only [latin1Encode, List.map_cons]
    rw [if_pos (h d (by simp))]
    have := ih (fun c hc => h c (by simp [hc]))
    simp only [latin1Encode] at this
    rw [this]

/-- Claim C6: placing a string via `PageCanvas.text` emits a show-text line in
which exactly backslash, `(` and `)` are backslash-escaped and all other
characters pass through; for single-byte text the `latin-1` encoding of that
line is the identity, and unescaping the escaped text recovers the original
string exactly. -/
theorem spec_C6 (x y : Int) (size : Nat) (s : List Char)
    (h : ∀ c ∈ s, c.toNat ≤ 255) :
    esc s = escSpec s
    ∧ (textOpLines x y size s).getD 3 [] = '(' :: esc s ++ (") Tj").toList
    ∧ latin1Encode (tjLine s) = tjLine s
    ∧ unesc (esc s) = s := by
  refine ⟨esc_eq_escSpec s, rfl, ?_, unesc_esc s⟩
  apply latin1Encode_of_le
  intro c hc
  simp only [tjLine, List.cons_append, List.mem_cons, List.mem_append] at hc
  rcases hc with rfl | hc | hc
  · decide
  · rw [esc_eq_escSpec] at hc
    exact escSpec_mem_le s h c hc
  · fin_cases hc <;> decide

/-- Claim C6 witness: the escaping and its inverse evaluated on a concrete
string holding parentheses and a backslash. -/
theorem spec_C6_witness :
    esc ("a(b\\c)".toList) = escSpec ("a(b\\c)".toList)
    ∧ (textOpLines 30 560 9 ("a(b\\c)".toList)).getD 3 []
        = '(' :: esc ("a(b\\c)".toList) ++ (") Tj").toList
    ∧ latin1Encode (tjLine ("a(b\\c)".toList)) = tjLine ("a(b\\c)".toList)
    ∧ unesc (esc ("a(b\\c)".toList)) = "a(b\\c)".toList :=
  spec_C6 30 560 9 ("a(b\\c)".toList) (by decide)

/-! ### Markup classifier (`_parse_analysis_blocks`) -/

/-- Claim C3: the markup classifier is total (a Lean function) and returns one
Block per input line: the number of blocks equals the number of lines of the
input, counting blank lines. -/
theorem spec_C3 (s : List Char) :
    (parseAnalysisBlocks s).length = lineCount s := by
  simp [parseAnalysisBlocks, lineCount]

/-- Claim C5 (code bug witness): the source's `***` replacement runs after the
`**` replacement has already consumed the asterisk pairs, so a word written
`***word***` classifies as a paragraph whose text still carries asterisks:
the block text is `*word*`, not `word`. -/
theorem spec_C5 :
    parseAnalysisBlocks ("***word***".toList) = [("paragraph", "*word*".toList)] := by
  decide

/-! ### Object store (`SimplePdf.add_object` / `SimplePdf.build`) -/

/-- Concatenation of a list of lists. -/
def flatCat {α : Type} : List (List α) → List α
  | [] => []
  | l :: ls => l ++ flatCat ls

/-- The serialized form of one object: `"<id> 0 obj\n" + body + "\nendobj\n"`. -/
def objBlock (i : Nat) (body : List Char) : List Char :=
  (toString i).toList ++ (" 0 obj\n").toList ++ body ++ ("\nendobj\n").toList

/-- The bytes the `build` loop appends for objects `i, i+1, ...` in creation
order. -/
def objChunk (i : Nat) : List (List Char) → List Char
  | [] => []
  | b :: bs => objBlock i b ++ objChunk (i + 1) bs

/-- The offsets the `build` loop records for objects `i, i+1, ...` when the
buffer currently holds `n` bytes. -/
def offsList (i n : Nat) : List (List Char) → List Nat
  | [] => []
  | b :: bs => n :: offsList (i + 1) (n + (objBlock i b).length) bs

/-- The object-emission loop of `SimplePdf.build`: `out` is the buffer so far,
`xref` the offsets recorded so far, `i` the id of the next object. -/
def buildGo (i : Nat) (objs : List (List Char)) (out : List Char) (xref : List Nat) :
    List Char × List Nat :=
  match objs with
  | [] => (out, xref)
  | b :: bs => buildGo (i + 1) bs (out ++ objBlock i b) (xref ++ [out.length])

/-- `f"{pos:010d}"`: decimal digits zero-padded on the left to width 10. -/
def pad10 (pos : Nat) : List Char :=
  List.replicate (10 - (toString pos).length) '0' ++ (toString pos).toList

/-- `SimplePdf.build(root)`: header, objects, cross-reference section, trailer.
Returns the final byte buffer together with the recorded offset table `xref`
(whose entry 0 is the free-list sentinel slot). -/
def buildOut (objs : List (List Char)) (root : Nat) : List Char × List Nat :=
  let r := buildGo 1 objs (("%PDF-1.4\n").toList) [0]
  let xrefPos := r.1.length
  let out2 := r.1
    ++ ("xref\n0 " ++ toString (objs.length + 1) ++ "\n").toList
    ++ ("0000000000 65535 f \n").toList
    ++ flatCat ((r.2.drop 1).map (fun pos => pad10 pos ++ (" 00000 n \n").toList))
    ++ ("trailer\n<< /Size " ++ toString (objs.length + 1) ++ " /Root "
        ++ toString root ++ " 0 R >>\n").toList
    ++ ("startxref\n").toList ++ (toString xrefPos).toList ++ ("\n%%EOF\n").toList
  (out2, r.2)

theorem buildGo_spec (objs : List (List Char)) :
    ∀ (i : Nat) (out : List Char) (xref : List Nat),
      buildGo i objs out xref = (out ++ objChunk i objs, xref ++ offsList i out.length objs) := by
  induction objs with
  | nil => intro i out xref; simp [buildGo, objChunk, offsList]
  | cons b bs ih =>
    intro i out xref
    rw [buildGo, ih]
    simp [objChunk, offsList, List.append_assoc]

theorem objBlock_head (i : Nat) (b : List Char) :
    ∃ tail, objBlock i b = ((toString i).toList ++ (" 0 obj").toList) ++ tail := by
  refine ⟨'\n' :: (b ++ ("\nendobj\n").toList), ?_⟩
  have h : (" 0 obj\n").toList = (" 0 obj").toList ++ ['\n'] := by decide
  simp [objBlock, h]

/-- Dropping the recorded offset from any buffer of the shape
`pre ++ objChunk i objs ++ suf` reveals the object's header line. -/
theorem objChunk_offset (objs : List (List Char)) :
    ∀ (i : Nat) (pre suf : List Char) (j : Nat), j < objs.length →
      ∃ tail, (pre ++ (objChunk i objs ++ suf)).drop ((offsList i pre.length objs).getD j 0)
        = (toString (i + j)).toList ++ (" 0 obj").toList ++ tail := by
  induction objs with
  | nil => intro i pre suf j hj; simp at hj
  | cons b bs ih =>
    intro i pre suf j hj
    cases j with
    | zero =>
      obtain ⟨tail, htail⟩ := objBlock_head i b
      refine ⟨tail ++ (objChunk (i + 1) bs ++ suf), ?_⟩
      simp only [offsList, List.getD_cons_zero, objChunk]
      rw [List.drop_append_of_le_length (le_refl pre.length), List.drop_length]
      simp [htail, List.append_assoc]
    | succ j' =>
      have hj' : j' < bs.length := by simpa using Nat.lt_of_succ_lt_succ hj
      obtain ⟨tail, htail⟩ := ih (i + 1) (pre ++ objBlock i b) suf j' hj'
      refine ⟨tail, ?_⟩
      have harr : pre ++ (objChunk i (b :: bs) ++ suf)
          = (pre ++ objBlock i b) ++ (objChunk (i + 1) bs ++ suf) := by
        simp [objChunk, List.append_assoc]
      have hlen : (pre ++ objBlock i b).length = pre.length + (objBlock i b).length := by
        simp
      have hidx : i + (j' + 1) = (i + 1) + j' := by omega
      rw [harr, hidx]
      simpa only [offsList, List.getD_cons_succ, hlen] using htail

/-- Claim C2: in the byte buffer returned by `build`, the offset recorded in
the cross-reference table for object id `i` points at bytes that begin exactly
with the ASCII text `"<i> 0 obj"`. -/
theorem spec_C2 (objs : List (List Char)) (root : Nat) (i : Nat)
    (h1 : 1 ≤ i) (h2 : i ≤ objs.length) :
    ∃ tail, (buildOut objs root).1.drop ((buildOut objs root).2.getD i 0)
      = (toString i).toList ++ (" 0 obj").toList ++ tail := by
  obtain ⟨j, rfl⟩ : ∃ j, i = j + 1 := ⟨i - 1, by omega⟩
  have hdr : (("%PDF-1.4\n").toList).length = 9 := by decide
  have hgo := buildGo_spec objs 1 (("%PDF-1.4\n").toList) [0]
  have hj : j < objs.length := by omega
  obtain ⟨tail, htail⟩ := objChunk_offset objs 1 (("%PDF-1.4\n").toList)
    (("xref\n0 " ++ toString (objs.length + 1) ++ "\n").toList
      ++ ("0000000000 65535 f \n").toList
      ++ flatCat (((offsList 1 9 objs)).map (fun pos => pad10 pos ++ (" 00000 n \n").toList))
      ++ ("trailer\n<< /Size " ++ toString (objs.length + 1) ++ " /Root "
          ++ toString root ++ " 0 R >>\n").toList
      ++ ("startxref\n").toList
      ++ (toString (("%PDF-1.4\n").toList ++ objChunk 1 objs).length).toList
      ++ ("\n%%EOF\n").toList)
    j hj
  refine ⟨tail, ?_⟩
  have hidx : 1 + j = j + 1 := by omega
  rw [hidx] at htail
  simp only [buildOut, hgo, hdr, List.nil_append, List.cons_append, List.drop_succ_cons,
    List.drop_zero, List.getD_cons_succ]
  simpa [List.append_assoc, hdr] using htail

/-- Claim C2 witness: a two-object document, checked at object id 2. -/
theorem spec_C2_witness :
    ∃ tail, (buildOut [("AA").toList, ("BBB").toList] 2).1.drop
        ((buildOut [("AA").toList, ("BBB").toList] 2).2.getD 2 0)
      = (toString 2).toList ++ (" 0 obj").toList ++ tail :=
  spec_C2 [("AA").toList, ("BBB").toList] 2 2 (by decide) (by decide)

/-- The buffer layout the C8 claim asserts for an empty object list, with an
8-byte header signature followed directly by the (empty) object section and
the cross-reference section; `pos` is the startxref value. -/
def claimedC8empty (pos : Nat) : List Char :=
  ("%PDF-1.4").toList
    ++ ("xref\n0 1\n").toList
    ++ ("0000000000 65535 f \n").toList
    ++ ("trailer\n<< /Size 1 /Root 1 0 R >>\n").toList
    ++ ("startxref\n").toList ++ (toString pos).toList ++ ("\n%%EOF\n").toList

/-- Claim C8 counterexample: the buffer does not consist of an 8-byte header
signature followed immediately by the object/cross-reference sections — the
header line is 9 bytes (`"%PDF-1.4\n"`), so byte 8 is a newline, not the start
of the next section.  Refuted at the empty document for every startxref
value. -/
theorem spec_C8_cex : ¬ ∃ pos : Nat, (buildOut [] 1).1 = claimedC8empty pos := by
  rintro ⟨pos, h⟩
  have h9 := congrArg (List.take 9) h
  have hL : (buildOut [] 1).1.take 9 = ("%PDF-1.4\n").toList := by decide
  have hsig : (("%PDF-1.4").toList).length = 8 := by decide
  have hR : (claimedC8empty pos).take 9 = ("%PDF-1.4x").toList := by
    have harr : claimedC8empty pos = ("%PDF-1.4").toList
        ++ (("xref\n0 1\n").toList
          ++ (("0000000000 65535 f \n").toList
            ++ (("trailer\n<< /Size 1 /Root 1 0 R >>\n").toList
              ++ (("startxref\n").toList ++ ((toString pos).toList ++ ("\n%%EOF\n").toList))))) := by
      simp [claimedC8empty, List.append_assoc]
    have h81 : (8 : Nat) + 1 = 9 := by decide
    have hx : ∀ (Y : List Char), List.take 1 ((("xref\n0 1\n").toList) ++ Y) = ['x'] :=
      fun Y => rfl
    rw [harr, ← h81, ← hsig, List.take_append, hx]
    decide
  rw [hL, hR] at h9
  exact absurd h9 (by decide)

/-- Claim C8 (amended): the buffer is exactly the 9-byte header line (the
8-byte signature `%PDF-1.4` plus a newline), then each object formatted as
`"<id> 0 obj\n<body>\nendobj\n"` in creation order, then the cross-reference
section whose count and the trailer's `/Size` both equal the object count plus
one, then a `startxref` line holding the byte offset of the `xref` keyword,
then the end-of-file marker. -/
theorem spec_C8 (objs : List (List Char)) (root : Nat) :
    (buildOut objs root).1
      = ("%PDF-1.4\n").toList
        ++ objChunk 1 objs
        ++ ("xref\n0 " ++ toString (objs.length + 1) ++ "\n").toList
        ++ ("0000000000 65535 f \n").toList
        ++ flatCat ((offsList 1 9 objs).map (fun pos => pad10 pos ++ (" 00000 n \n").toList))
        ++ ("trailer\n<< /Size " ++ toString (objs.length + 1) ++ " /Root "
            ++ toString root ++ " 0 R >>\n").toList
        ++ ("startxref\n").toList
        ++ (toString (9 + (objChunk 1 objs).length)).toList
        ++ ("\n%%EOF\n").toList
    ∧ (buildOut objs root).2 = 0 :: offsList 1 9 objs := by
  have hdr : (("%PDF-1.4\n").toList).length = 9 := by decide
  have hgo := buildGo_spec objs 1 (("%PDF-1.4\n").toList) [0]
  have hlen : ((("%PDF-1.4\n").toList) ++ objChunk 1 objs).length
      = 9 + (objChunk 1 objs).length := by
    rw [List.length_append, hdr]
  constructor
  · show (buildGo 1 objs (("%PDF-1.4\n").toList) [0]).1
        ++ ("xref\n0 " ++ toString (objs.length + 1) ++ "\n").toList
        ++ ("0000000000 65535 f \n").toList
        ++ flatCat (((buildGo 1 objs (("%PDF-1.4\n").toList) [0]).2.drop 1).map
            (fun pos => pad10 pos ++ (" 00000 n \n").toList))
        ++ ("trailer\n<< /Size " ++ toString (objs.length + 1) ++ " /Root "
            ++ toString root ++ " 0 R >>\n").toList
        ++ ("startxref\n").toList
        ++ (toString (buildGo 1 objs (("%PDF-1.4\n").toList) [0]).1.length).toList
        ++ ("\n%%EOF\n").toList
      = _
    rw [hgo]
    simp only [hlen, hdr, List.drop_succ_cons, List.drop_zero, List.nil_append,
      List.cons_append]
  · show (buildGo 1 objs (("%PDF-1.4\n").toList) [0]).2 = 0 :: offsList 1 9 objs
    rw [hgo, hdr]
    rfl

/-! ### Pagination engine (`_build_simple_pdf`, `render_table`, narrative loop)

A `TextOp` is one `page.text(x, y, size, content)` call; a `Page` is the list
of such calls on one `PageCanvas`; `LayoutState` is the mutable state of the
layout pass: the pages already left behind, the current page, and the cursor
`y`. -/

structure TextOp where
  x : Int
  y : Int
  size : Nat
  content : List Char
deriving DecidableEq

abbrev Page := List TextOp

structure LayoutState where
  done : List Page
  cur : Page
  y : Int
deriving DecidableEq

/-- All pages of a layout state, the current page last (the source's `pages`
list). -/
def statePages (st : LayoutState) : List Page :=
  st.done ++ [st.cur]

/-- `col_widths = [150] + [42] * 12 + [50]`. -/
def colWidths : List Int := [150] ++ List.replicate 12 42 ++ [50]

/-- `x_positions`: running cumulative sums of the column widths from left
margin 30. -/
def xPositions : List Int :=
  colWidths.dropLast.foldl (fun acc w => acc ++ [acc.getLastD 0 + w]) [30]

/-- The text operations of one `for i, cell in enumerate(...)` pass drawing a
row of cells at vertical position `yv` and font size `size`, starting at
column index `i`. -/
def cellOps (size : Nat) (yv : Int) : Nat → List (List Char) → List TextOp
  | _, [] => []
  | i, c :: cs => ⟨xPositions.getD i 0 + 2, yv, size, c⟩ :: cellOps size yv (i + 1) cs

/-- The row loop of `render_table`: on overflow (`y < 40`) start a new page
with the continued title and a fresh header row at 560 (so the row itself
lands at 546), otherwise draw the row at the cursor and step down 12. -/
def renderTableGo (title : List Char) (hdrs : List (List Char)) :
    List (List (List Char)) → LayoutState → LayoutState
  | [], st => st
  | r :: rs, st =>
      if st.y < 40 then
        renderTableGo title hdrs rs
          ⟨st.done ++ [st.cur],
           (⟨30, 580, 13, title ++ (" (continued)").toList⟩ :: cellOps 8 560 0 hdrs)
             ++ cellOps 7 546 0 r,
           534⟩
      else
        renderTableGo title hdrs rs ⟨st.done, st.cur ++ cellOps 7 st.y 0 r, st.y - 12⟩

/-- `render_table`: title at (30, 540) size 13, header row at 525 (leaving the
cursor at 511), then the row loop. -/
def renderTable (title : List Char) (hdrs : List (List Char))
    (rows : List (List (List Char))) (st : LayoutState) : LayoutState :=
  renderTableGo title hdrs rows
    ⟨st.done, st.cur ++ ⟨30, 540, 13, title⟩ :: cellOps 8 525 0 hdrs, 511⟩

/-! Narrative layout. -/

/-- Splitting a text into whitespace-separated words (`cur` holds the current
word reversed). -/
def splitWordsGo (cur : List Char) : List Char → List (List Char)
  | [] => if cur.isEmpty then [] else [cur.reverse]
  | c :: rest =>
      if pyIsSpace c then
        if cur.isEmpty then splitWordsGo [] rest
        else cur.reverse :: splitWordsGo [] rest
      else splitWordsGo (c :: cur) rest

def splitWords (s : List Char) : List (List Char) :=
  splitWordsGo [] s

/-- Greedy line filling: keep adding the next word (plus a separating space)
while the line stays within `width`. -/
def greedyGo (width : Nat) (cur : List Char) : List (List Char) → List (List Char)
  | [] => [cur]
  | w :: ws =>
      if cur.length + 1 + w.length ≤ width then greedyGo width (cur ++ ' ' :: w) ws
      else cur :: greedyGo width w ws

/-- Greedy word-wrap at `width` characters: the behaviour of `textwrap.wrap`
on the engine's inputs (Python's `textwrap` additionally splits single words
longer than the width; no property below depends on where lines break).
Returns `[]` exactly when the text has no non-whitespace character, which is
the case the source guards with `textwrap.wrap(...) or [content]`. -/
def pyWrap (width : Nat) (s : List Char) : List (List Char) :=
  match splitWords s with
  | [] => []
  | w :: ws => greedyGo width w ws

/-- `textwrap.wrap(content, width=width) or [content]`. -/
def wrapOr (width : Nat) (content : List Char) : List (List Char) :=
  match pyWrap width content with
  | [] => [content]
  | ls => ls

/-- The bullet branch prefixes: `"• "` on the first wrapped line, two blanks
on continuation lines (the source applies the prefix per line via
`enumerate`; precomputing it on the wrapped lines draws the same
operations). -/
def bulletMarked : List (List Char) → List (List Char)
  | [] => []
  | w :: ws => (("• ").toList ++ w) :: ws.map (fun v => ("  ").toList ++ v)

/-- The narrative page title operation. -/
def execTitle : TextOp := ⟨30, 580, 14, ("Executive Analysis").toList⟩

/-- The continuation-page title operation of the narrative section. -/
def contTitle : TextOp := ⟨30, 580, 14, ("Executive Analysis (continued)").toList⟩

/-- The per-line loop shared by the heading/bullet/paragraph branches: before
drawing each line, if the cursor is past the bottom limit start a new page
titled "(continued)" and reset to 560; then draw the line and step down. -/
def drawWrapped (size : Nat) (step : Int) : List (List Char) → LayoutState → LayoutState
  | [], st => st
  | w :: ws, st =>
      if st.y < 30 then
        drawWrapped size step ws
          ⟨st.done ++ [st.cur], [contTitle, ⟨30, 560, size, w⟩], 560 - step⟩
      else
        drawWrapped size step ws ⟨st.done, st.cur ++ [⟨30, st.y, size, w⟩], st.y - step⟩

/-- The block-level overflow check performed before a non-spacer block is
rendered. -/
def pageReady (st : LayoutState) : LayoutState :=
  if st.y < 30 then ⟨st.done ++ [st.cur], [contTitle], (560 : Int)⟩ else st

/-- The lines a block contributes to the page (with the bullet markers the
source adds at draw time). -/
def blockLines (b : String × List Char) : List (List Char) :=
  if b.1 = "space" then []
  else if b.1 = "heading" then wrapOr 95 b.2
  else if b.1 = "bullet" then bulletMarked (wrapOr 120 b.2)
  else wrapOr 125 b.2

/-- One iteration of the narrative block loop of `_build_simple_pdf`. -/
def narrStep (b : String × List Char) (st : LayoutState) : LayoutState :=
  if b.1 = "space" then ⟨st.done, st.cur, st.y - 6⟩
  else if b.1 = "heading" then
    let st2 := drawWrapped 11 12 (wrapOr 95 b.2) (pageReady st)
    ⟨st2.done, st2.cur, st2.y - 2⟩
  else if b.1 = "bullet" then
    drawWrapped 9 11 (bulletMarked (wrapOr 120 b.2)) (pageReady st)
  else
    drawWrapped 9 11 (wrapOr 125 b.2) (pageReady st)

/-- The whole narrative block loop. -/
def narrGo : List (String × List Char) → LayoutState → LayoutState
  | [], st => st
  | b :: bs, st => narrGo bs (narrStep b st)

/-- The pages of the narrative section of the built document: a fresh page
carrying the "Executive Analysis" title, cursor at 560, then the block
loop. -/
def narrativeSection (blocks : List (String × List Char)) : List Page :=
  statePages (narrGo blocks ⟨[], [execTitle], 560⟩)

/-! Counting and collecting placed text.  Data cells are the only operations
drawn at font size 7 and header cells the only ones at size 8; narrative
lines are exactly the operations at sizes 9 and 11 (titles use 13, 14, 18,
and the narrative section never uses the document subtitle size). -/

/-- The contents of the operations of one page at exactly font size `size`,
in drawing order. -/
def pageTexts (size : Nat) : Page → List (List Char)
  | [] => []
  | o :: p => if o.size = size then o.content :: pageTexts size p else pageTexts size p

/-- `pageTexts` over a list of pages, in page order. -/
def catTexts (size : Nat) : List Page → List (List Char)
  | [] => []
  | p :: ps => pageTexts size p ++ catTexts size ps

/-- The contents of the narrative line operations (sizes 9 and 11) of one
page. -/
def lineTexts : Page → List (List Char)
  | [] => []
  | o :: p => if o.size = 9 ∨ o.size = 11 then o.content :: lineTexts p else lineTexts p

/-- `lineTexts` over a list of pages. -/
def catLineTexts : List Page → List (List Char)
  | [] => []
  | p :: ps => lineTexts p ++ catLineTexts ps

/-- A page draws at least one narrative line. -/
def hasDrawnLine (p : Page) : Prop :=
  ∃ o ∈ p, o.size = 9 ∨ o.size = 11

/-- A page that starts with the narrative continuation title carries at least
one drawn line: continuation pages are only ever created immediately before
a line is drawn. -/
def contOk (p : Page) : Prop :=
  p.head? = some contTitle → hasDrawnLine p

instance (p : Page) : Decidable (hasDrawnLine p) := by
  unfold hasDrawnLine
  infer_instance

instance (p : Page) : Decidable (contOk p) := by
  unfold contOk
  infer_instance

theorem pageTexts_append (size : Nat) (p q : Page) :
    pageTexts size (p ++ q) = pageTexts size p ++ pageTexts size q := by
  induction p with
  | nil => simp [pageTexts]
  | cons o p ih =>
    by_cases h : o.size = size
    · simp [pageTexts, h, ih]
    · simp [pageTexts, h, ih]

theorem catTexts_append (size : Nat) (ps qs : List Page) :
    catTexts size (ps ++ qs) = catTexts size ps ++ catTexts size qs := by
  induction ps with
  | nil => simp [catTexts]
  | cons p ps ih => simp [catTexts, ih]

theorem pageTexts_cellOps_same (size : Nat) (yv : Int) :
    ∀ (i : Nat) (cs : List (List Char)), pageTexts size (cellOps size yv i cs) = cs := by
  intro i cs
  induction cs generalizing i with
  | nil => simp [cellOps, pageTexts]
  | cons c cs ih => simp [cellOps, pageTexts, ih]

theorem pageTexts_cellOps_ne (size size' : Nat) (h : size' ≠ size) (yv : Int) :
    ∀ (i : Nat) (cs : List (List Char)), pageTexts size (cellOps size' yv i cs) = [] := by
  intro i cs
  induction cs generalizing i with
  | nil => simp [cellOps, pageTexts]
  | cons c cs ih => simp [cellOps, pageTexts, h, ih]

/-- The row loop places exactly the row cells (in order) at font size 7. -/
theorem renderTableGo_cells (title : List Char) (hdrs : List (List Char)) :
    ∀ (rows : List (List (List Char))) (st : LayoutState),
      catTexts 7 (statePages (renderTableGo title hdrs rows st))
        = catTexts 7 (statePages st) ++ flatCat rows := by
  intro rows
  induction rows with
  | nil => intro st; simp [renderTableGo, flatCat]
  | cons r rs ih =>
    intro st
    rw [renderTableGo]
    by_cases hy : st.y < 40
    · rw [if_pos hy, ih]
      simp [statePages, catTexts_append, catTexts, pageTexts_append,
        pageTexts_cellOps_same, pageTexts_cellOps_ne 7 8 (by decide),
        pageTexts, flatCat, List.append_assoc]
    · rw [if_neg hy, ih]
      simp [statePages, catTexts_append, catTexts, pageTexts_append,
        pageTexts_cellOps_same, flatCat, List.append_assoc]

/-- The row loop places one full header row (size 8) per continuation page,
and grows `done` by exactly that number of pages. -/
theorem renderTableGo_headers (title : List Char) (hdrs : List (List Char)) :
    ∀ (rows : List (List (List Char))) (st : LayoutState),
      ∃ k : Nat, (renderTableGo title hdrs rows st).done.length = st.done.length + k
        ∧ catTexts 8 (statePages (renderTableGo title hdrs rows st))
            = catTexts 8 (statePages st) ++ flatCat (List.replicate k hdrs) := by
  intro rows
  induction rows with
  | nil =>
    intro st
    exact ⟨0, by simp [renderTableGo], by simp [renderTableGo, flatCat]⟩
  | cons r rs ih =>
    intro st
    rw [renderTableGo]
    by_cases hy : st.y < 40
    · rw [if_pos hy]
      obtain ⟨k, hk1, hk2⟩ := ih
        ⟨st.done ++ [st.cur],
         (⟨30, 580, 13, title ++ (" (continued)").toList⟩ :: cellOps 8 560 0 hdrs)
           ++ cellOps 7 546 0 r,
         534⟩
      refine ⟨k + 1, ?_, ?_⟩
      · simp only [hk1]
        simp
        omega
      · rw [hk2]
        have hmid : catTexts 8 (statePages
            ⟨st.done ++ [st.cur],
             (⟨30, 580, 13, title ++ (" (continued)").toList⟩ :: cellOps 8 560 0 hdrs)
               ++ cellOps 7 546 0 r,
             534⟩)
            = catTexts 8 (statePages st) ++ hdrs := by
          simp [statePages, catTexts_append, catTexts, pageTexts_append,
            pageTexts_cellOps_same, pageTexts_cellOps_ne 8 7 (by decide),
            pageTexts]
        rw [hmid]
        have hrep : flatCat (List.replicate (k + 1) hdrs)
            = hdrs ++ flatCat (List.replicate k hdrs) := by
          simp [List.replicate_succ, flatCat]
        rw [hrep, List.append_assoc]
    · rw [if_neg hy]
      obtain ⟨k, hk1, hk2⟩ := ih ⟨st.done, st.cur ++ cellOps 7 st.y 0 r, st.y - 12⟩
      refine ⟨k, ?_, ?_⟩
      · simpa using hk1
      · rw [hk2]
        simp [statePages, catTexts_append, catTexts, pageTexts_append,
          pageTexts_cellOps_ne 8 7 (by decide)]

/-- `render_table` places exactly the data rows at size 7 and one header row
per page of the table (first page plus one per continuation page). -/
theorem renderTable_spec (title : List Char) (hdrs : List (List Char))
    (rows : List (List (List Char))) (st : LayoutState) :
    (catTexts 7 (statePages (renderTable title hdrs rows st))
        = catTexts 7 (statePages st) ++ flatCat rows)
    ∧ ∃ k : Nat, (renderTable title hdrs rows st).done.length = st.done.length + k
        ∧ catTexts 8 (statePages (renderTable title hdrs rows st))
            = catTexts 8 (statePages st) ++ flatCat (List.replicate (1 + k) hdrs) := by
  constructor
  · rw [renderTable, renderTableGo_cells]
    simp [statePages, catTexts_append, catTexts, pageTexts_append,
      pageTexts_cellOps_ne 7 8 (by decide), pageTexts]
  · obtain ⟨k, hk1, hk2⟩ := renderTableGo_headers title hdrs rows
      ⟨st.done, st.cur ++ ⟨30, 540, 13, title⟩ :: cellOps 8 525 0 hdrs, 511⟩
    refine ⟨k, by simpa [renderTable] using hk1, ?_⟩
    rw [renderTable, hk2]
    have hinit : catTexts 8 (statePages
        ⟨st.done, st.cur ++ ⟨30, 540, 13, title⟩ :: cellOps 8 525 0 hdrs, 511⟩)
        = catTexts 8 (statePages st) ++ hdrs := by
      simp [statePages, catTexts_append, catTexts, pageTexts_append,
        pageTexts_cellOps_same, pageTexts]
    rw [hinit]
    have hrep : flatCat (List.replicate (1 + k) hdrs)
        = hdrs ++ flatCat (List.replicate k hdrs) := by
      have : 1 + k = k + 1 := by omega
      simp [this, List.replicate_succ, flatCat]
    rw [hrep, List.append_assoc]

theorem lineTexts_append (p q : Page) :
    lineTexts (p ++ q) = lineTexts p ++ lineTexts q := by
  induction p with
  | nil => simp [lineTexts]
  | cons o p ih =>
    by_cases h : o.size = 9 ∨ o.size = 11
    · simp [lineTexts, h, ih]
    · simp [lineTexts, h, ih]

theorem catLineTexts_append (ps qs : List Page) :
    catLineTexts (ps ++ qs) = catLineTexts ps ++ catLineTexts qs := by
  induction ps with
  | nil => simp [catLineTexts]
  | cons p ps ih => simp [catLineTexts, ih]

/-- The per-line loop draws exactly its input lines, in order, at the given
size (9 for bullets and paragraphs, 11 for headings). -/
theorem drawWrapped_lines :
    ∀ (size : Nat) (step : Int), (size = 9 ∨ size = 11) →
      ∀ (lines : List (List Char)) (st : LayoutState),
        catLineTexts (statePages (drawWrapped size step lines st))
          = catLineTexts (statePages st) ++ lines := by
  rintro size step (rfl | rfl) lines <;>
  · induction lines with
    | nil => intro st; simp [drawWrapped]
    | cons w ws ih =>
      intro st
      rw [drawWrapped]
      by_cases hy : st.y < 30
      · rw [if_pos hy, ih]
        simp [statePages, catLineTexts_append, catLineTexts, lineTexts_append, lineTexts,
          contTitle, List.append_assoc]
      · rw [if_neg hy, ih]
        simp [statePages, catLineTexts_append, catLineTexts, lineTexts_append, lineTexts,
          List.append_assoc]

/-- The block-level page check never draws a narrative line. -/
theorem pageReady_lines (st : LayoutState) :
    catLineTexts (statePages (pageReady st)) = catLineTexts (statePages st) := by
  unfold pageReady
  by_cases hy : st.y < 30
  · rw [if_pos hy]
    simp [statePages, catLineTexts_append, catLineTexts, lineTexts, contTitle]
  · rw [if_neg hy]

/-- One narrative block draws exactly its `blockLines`. -/
theorem narrStep_lines (b : String × List Char) (st : LayoutState) :
    catLineTexts (statePages (narrStep b st))
      = catLineTexts (statePages st) ++ blockLines b := by
  by_cases hsp : b.1 = "space"
  · simp [narrStep, blockLines, hsp, statePages]
  · by_cases hh : b.1 = "heading"
    · have hstep : narrStep b st
          = ⟨(drawWrapped 11 12 (wrapOr 95 b.2) (pageReady st)).done,
             (drawWrapped 11 12 (wrapOr 95 b.2) (pageReady st)).cur,
             (drawWrapped 11 12 (wrapOr 95 b.2) (pageReady st)).y - 2⟩ := by
        simp [narrStep, hsp, hh]
      have hpg : statePages (narrStep b st)
          = statePages (drawWrapped 11 12 (wrapOr 95 b.2) (pageReady st)) := by
        rw [hstep]; rfl
      rw [hpg, drawWrapped_lines 11 12 (Or.inr rfl), pageReady_lines]
      simp [blockLines, hsp, hh]
    · by_cases hb : b.1 = "bullet"
      · have hstep : narrStep b st
            = drawWrapped 9 11 (bulletMarked (wrapOr 120 b.2)) (pageReady st) := by
          simp [narrStep, hsp, hh, hb]
        rw [hstep, drawWrapped_lines 9 11 (Or.inl rfl), pageReady_lines]
        simp [blockLines, hsp, hh, hb]
      · have hstep : narrStep b st
            = drawWrapped 9 11 (wrapOr 125 b.2) (pageReady st) := by
          simp [narrStep, hsp, hh, hb]
        rw [hstep, drawWrapped_lines 9 11 (Or.inl rfl), pageReady_lines]
        simp [blockLines, hsp, hh, hb]

/-- The narrative loop draws exactly the concatenation of every block's
lines: no line of any block is omitted or duplicated. -/
theorem narrGo_lines (blocks : List (String × List Char)) :
    ∀ st : LayoutState,
      catLineTexts (statePages (narrGo blocks st))
        = catLineTexts (statePages st) ++ flatCat (blocks.map blockLines) := by
  induction blocks with
  | nil => intro st; simp [narrGo, flatCat]
  | cons b bs ih =>
    intro st
    rw [narrGo, ih, narrStep_lines]
    simp [flatCat, List.append_assoc]

/-- A run of spacer blocks only decrements the cursor: no page is created and
no operation is drawn, whatever the cursor value. -/
theorem narrGo_spacers (k : Nat) :
    ∀ st : LayoutState,
      narrGo (List.replicate k ("space", ([] : List Char))) st
        = ⟨st.done, st.cur, st.y - 6 * k⟩ := by
  induction k with
  | zero =>
    intro st
    simp [narrGo]
  | succ n ih =>
    intro st
    rw [List.replicate_succ, narrGo]
    have hstep : narrStep ("space", ([] : List Char)) st = ⟨st.done, st.cur, st.y - 6⟩ := by
      simp [narrStep]
    rw [hstep, ih]
    have : st.y - 6 - 6 * (n : Int) = st.y - 6 * ((n : Int) + 1) := by ring
    have h2 : ((n + 1 : Nat) : Int) = (n : Int) + 1 := by push_cast; ring
    simp only [this, h2]

theorem wrapOr_ne_nil (width : Nat) (content : List Char) : wrapOr width content ≠ [] := by
  unfold wrapOr
  cases h : pyWrap width content with
  | nil => simp
  | cons w ws => simp

theorem bulletMarked_ne_nil (ls : List (List Char)) (h : ls ≠ []) : bulletMarked ls ≠ [] := by
  cases ls with
  | nil => exact absurd rfl h
  | cons w ws => simp [bulletMarked]

theorem blockLines_ne_nil (b : String × List Char) (h : b.1 ≠ "space") :
    blockLines b ≠ [] := by
  unfold blockLines
  rw [if_neg h]
  by_cases hh : b.1 = "heading"
  · rw [if_pos hh]; exact wrapOr_ne_nil 95 b.2
  · rw [if_neg hh]
    by_cases hb : b.1 = "bullet"
    · rw [if_pos hb]; exact bulletMarked_ne_nil _ (wrapOr_ne_nil 120 b.2)
    · rw [if_neg hb]; exact wrapOr_ne_nil 125 b.2

theorem contOk_append_line (p : Page) (o : TextOp) (ho : o.size = 9 ∨ o.size = 11) :
    contOk (p ++ [o]) := by
  intro _
  exact ⟨o, by simp, ho⟩

/-- The per-line loop preserves the continuation-page invariant: it either
starts from a well-formed current page, or it is about to draw at least one
line on a current page whose cursor is still above the limit. -/
theorem drawWrapped_inv :
    ∀ (size : Nat) (step : Int), (size = 9 ∨ size = 11) →
      ∀ (lines : List (List Char)) (st : LayoutState),
        (∀ p ∈ st.done, contOk p) →
        (contOk st.cur ∨ (lines ≠ [] ∧ ¬ st.y < 30)) →
        ∀ p ∈ statePages (drawWrapped size step lines st), contOk p := by
  intro size step hsz lines
  induction lines with
  | nil =>
    intro st hdone hcur
    rcases hcur with hcur | ⟨hne, _⟩
    · intro p hp
      rw [drawWrapped] at hp
      rcases List.mem_append.mp hp with hp | hp
      · exact hdone p hp
      · rw [List.mem_singleton.mp hp]; exact hcur
    · exact absurd rfl hne
  | cons w ws ih =>
    intro st hdone hcur
    rw [drawWrapped]
    by_cases hy : st.y < 30
    · rw [if_pos hy]
      have hcur' : contOk st.cur := by
        rcases hcur with hcur | ⟨_, hny⟩
        · exact hcur
        · exact absurd hy hny
      apply ih
      · intro p hp
        rcases List.mem_append.mp hp with hp | hp
        · exact hdone p hp
        · rw [List.mem_singleton.mp hp]; exact hcur'
      · refine Or.inl ?_
        intro _
        exact ⟨⟨30, 560, size, w⟩, by simp, hsz⟩
    · rw [if_neg hy]
      apply ih
      · exact hdone
      · exact Or.inl (contOk_append_line st.cur _ hsz)

/-- One narrative block preserves the continuation-page invariant. -/
theorem narrStep_inv (b : String × List Char) (st : LayoutState)
    (h : ∀ p ∈ statePages st, contOk p) :
    ∀ p ∈ statePages (narrStep b st), contOk p := by
  have hdone : ∀ p ∈ st.done, contOk p := by
    intro p hp; exact h p (by simp [statePages, hp])
  have hcur : contOk st.cur := h st.cur (by simp [statePages])
  have hready : (∀ p ∈ (pageReady st).done, contOk p)
      ∧ (contOk (pageReady st).cur ∨ ¬ (pageReady st).y < 30) := by
    unfold pageReady
    by_cases hy : st.y < 30
    · rw [if_pos hy]
      refine ⟨?_, Or.inr (by norm_num)⟩
      intro p hp
      rcases List.mem_append.mp hp with hp | hp
      · exact hdone p hp
      · rw [List.mem_singleton.mp hp]; exact hcur
    · rw [if_neg hy]
      exact ⟨hdone, Or.inl hcur⟩
  by_cases hsp : b.1 = "space"
  · have hstep : narrStep b st = ⟨st.done, st.cur, st.y - 6⟩ := by simp [narrStep, hsp]
    rw [hstep]
    intro p hp
    exact h p (by simpa [statePages] using hp)
  · by_cases hh : b.1 = "heading"
    · have hstep : statePages (narrStep b st)
          = statePages (drawWrapped 11 12 (wrapOr 95 b.2) (pageReady st)) := by
        simp [narrStep, hsp, hh]; rfl
      rw [hstep]
      apply drawWrapped_inv 11 12 (Or.inr rfl) _ _ hready.1
      rcases hready.2 with hc | hc
      · exact Or.inl hc
      · exact Or.inr ⟨wrapOr_ne_nil 95 b.2, hc⟩
    · by_cases hb : b.1 = "bullet"
      · have hstep : narrStep b st
            = drawWrapped 9 11 (bulletMarked (wrapOr 120 b.2)) (pageReady st) := by
          simp [narrStep, hsp, hh, hb]
        rw [hstep]
        apply drawWrapped_inv 9 11 (Or.inl rfl) _ _ hready.1
        rcases hready.2 with hc | hc
        · exact Or.inl hc
        · exact Or.inr ⟨bulletMarked_ne_nil _ (wrapOr_ne_nil 120 b.2), hc⟩
      · have hstep : narrStep b st
            = drawWrapped 9 11 (wrapOr 125 b.2) (pageReady st) := by
          simp [narrStep, hsp, hh, hb]
        rw [hstep]
        apply drawWrapped_inv 9 11 (Or.inl rfl) _ _ hready.1
        rcases hready.2 with hc | hc
        · exact Or.inl hc
        · exact Or.inr ⟨wrapOr_ne_nil 125 b.2, hc⟩

/-- The narrative loop preserves the continuation-page invariant. -/
theorem narrGo_inv (blocks : List (String × List Char)) :
    ∀ st : LayoutState, (∀ p ∈ statePages st, contOk p) →
      ∀ p ∈ statePages (narrGo blocks st), contOk p := by
  induction blocks with
  | nil => intro st h; exact h
  | cons b bs ih =>
    intro st h
    rw [narrGo]
    exact ih _ (narrStep_inv b st h)

/-- Claim C1: for every headers list and every list of N rows the pagination
engine places exactly the N data rows — the size-7 cell contents of the
produced pages are precisely the rows' cells, in order, none omitted or
duplicated — plus the column header row drawn once on the table's first page
and once more per continuation page (`k` continuation pages, `1 + k` header
rows); and the narrative loop places every line of every block exactly once,
in order. -/
theorem spec_C1 (title : List Char) (hdrs : List (List Char))
    (rows : List (List (List Char))) (blocks : List (String × List Char))
    (st st2 : LayoutState) :
    catTexts 7 (statePages (renderTable title hdrs rows st))
      = catTexts 7 (statePages st) ++ flatCat rows
    ∧ (∃ k : Nat, (renderTable title hdrs rows st).done.length = st.done.length + k
        ∧ catTexts 8 (statePages (renderTable title hdrs rows st))
            = catTexts 8 (statePages st) ++ flatCat (List.replicate (1 + k) hdrs))
    ∧ catLineTexts (statePages (narrGo blocks st2))
        = catLineTexts (statePages st2) ++ flatCat (blocks.map blockLines) :=
  ⟨(renderTable_spec title hdrs rows st).1, (renderTable_spec title hdrs rows st).2,
   narrGo_lines blocks st2⟩

/-- Claim C4 counterexample: for the empty analysis text, the classifier does
not yield one Spacer block — `"".splitlines()` is empty, so the block
sequence is empty, not `[Spacer]`. -/
theorem spec_C4_cex :
    ¬ (parseAnalysisBlocks [] = [("space", ([] : List Char))]
        ∧ narrativeSection (parseAnalysisBlocks []) = [[execTitle]]) := by
  decide

/-- Claim C4 (amended): for the empty analysis text the classifier yields the
empty block sequence (zero blocks), and the narrative section of the built
document is a single page containing only the "Executive Analysis" title
operation. -/
theorem spec_C4 :
    parseAnalysisBlocks [] = []
    ∧ narrativeSection (parseAnalysisBlocks []) = [[execTitle]] := by
  decide

/-- Claim C9: a spacer block only decrements the cursor — a run of `k` spacers
leaves the pages untouched and moves the cursor down `6 * k`, with no overflow
check, so the cursor can fall arbitrarily far below the bottom limit; and a
continuation page is only ever created immediately before a heading, bullet or
paragraph line is drawn on it (every continuation-titled page of the output
carries a drawn line). -/
theorem spec_C9 (st : LayoutState) (k : Nat) (bound : Int)
    (blocks : List (String × List Char))
    (h : ∀ p ∈ statePages st, contOk p) :
    narrGo (List.replicate k ("space", ([] : List Char))) st
      = ⟨st.done, st.cur, st.y - 6 * k⟩
    ∧ (∃ kk : Nat,
        (narrGo (List.replicate kk ("space", ([] : List Char))) st).done = st.done
        ∧ (narrGo (List.replicate kk ("space", ([] : List Char))) st).y < bound)
    ∧ ∀ p ∈ statePages (narrGo blocks st), contOk p := by
  refine ⟨narrGo_spacers k st, ?_, narrGo_inv blocks st h⟩
  refine ⟨(st.y - bound).toNat + 1, ?_, ?_⟩
  · rw [narrGo_spacers]
  · rw [narrGo_spacers]
    have h1 : st.y - bound ≤ ((st.y - bound).toNat : Int) := Int.self_le_toNat _
    have h2 : ((((st.y - bound).toNat + 1 : Nat)) : Int)
        = ((st.y - bound).toNat : Int) + 1 := by push_cast; ring
    simp only [h2]
    nlinarith [h1]

/-- Claim C9 witness: from the fresh narrative page, three spacers only move
the cursor; some spacer run pushes the cursor below -100 without creating a
page; and a concrete paragraph run keeps every continuation page carrying a
drawn line. -/
theorem spec_C9_witness :
    narrGo (List.replicate 3 ("space", ([] : List Char)))
        ⟨[], [execTitle], 560⟩
      = ⟨[], [execTitle], 560 - 6 * (3 : Nat)⟩
    ∧ (∃ kk : Nat,
        (narrGo (List.replicate kk ("space", ([] : List Char)))
            ⟨[], [execTitle], 560⟩).done = []
        ∧ (narrGo (List.replicate kk ("space", ([] : List Char)))
            ⟨[], [execTitle], 560⟩).y < -100)
    ∧ ∀ p ∈ statePages (narrGo [("paragraph", ("hi").toList)]
        ⟨[], [execTitle], 560⟩), contOk p :=
  spec_C9 ⟨[], [execTitle], 560⟩ 3 (-100) [("paragraph", ("hi").toList)] (by decide)

/-- Claim C10: every non-spacer block contributes at least one placed line —
its `blockLines` are nonempty and the narrative step draws exactly them; in
particular when the block's text word-wraps to zero lines (for example the
empty text a marker-only line classifies to), the `or [content]` fallback
still draws exactly one line carrying that text. -/
theorem spec_C10 (t : String) (c : List Char) (st : LayoutState)
    (h : t ≠ "space") :
    blockLines (t, c) ≠ []
    ∧ (pyWrap (if t = "heading" then 95 else if t = "bullet" then 120 else 125) c = [] →
        blockLines (t, c) = [(if t = "bullet" then ("• ").toList else []) ++ c])
    ∧ catLineTexts (statePages (narrStep (t, c) st))
        = catLineTexts (statePages st) ++ blockLines (t, c) := by
  refine ⟨blockLines_ne_nil (t, c) h, ?_, narrStep_lines (t, c) st⟩
  intro hw
  by_cases hh : t = "heading"
  · subst hh
    rw [if_pos rfl] at hw
    simp [blockLines, wrapOr, hw]
  · by_cases hb : t = "bullet"
    · subst hb
      rw [if_neg (by decide), if_pos rfl] at hw
      simp [blockLines, wrapOr, hw, bulletMarked]
    · rw [if_neg hh, if_neg hb] at hw
      simp [blockLines, wrapOr, h, hh, hb, hw]

/-- Claim C10 witness: a paragraph whose cleaned text is empty (as produced by
a line holding only emphasis markers) wraps to zero lines yet is drawn as
exactly one (empty) line. -/
theorem spec_C10_witness :
    blockLines ("paragraph", ([] : List Char)) ≠ []
    ∧ (pyWrap (if ("paragraph" : String) = "heading" then 95
          else if ("paragraph" : String) = "bullet" then 120 else 125) [] = [] →
        blockLines ("paragraph", ([] : List Char))
          = [(if ("paragraph" : String) = "bullet" then ("• ").toList else []) ++ []])
    ∧ catLineTexts (statePages (narrStep ("paragraph", []) ⟨[], [execTitle], 560⟩))
        = catLineTexts (statePages ⟨[], [execTitle], 560⟩)
            ++ blockLines ("paragraph", []) :=
  spec_C10 "paragraph" [] ⟨[], [execTitle], 560⟩ (by decide)

/-! ### Engine selector (`build_pdf`) -/

inductive RenderEffect where
  | rich
  | simple
deriving DecidableEq

inductive BuildOutcome where
  | configError
  | richError
  | produced (engine : String)
deriving DecidableEq

/-- `build_pdf`'s selector logic.  The rich collaborator (`weasyprint`) is
external to this engine, so its run is abstracted by the oracle `richOk`: it
either writes the file and returns, or raises.  The effect list records which
renderers ran, in order; the engine-name check precedes every effect. -/
def buildPdf (engine : String) (richOk : Bool) : BuildOutcome × List RenderEffect :=
  if ¬ (engine = "auto" ∨ engine = "simple" ∨ engine = "weasyprint") then
    (.configError, [])
  else if engine = "auto" ∨ engine = "weasyprint" then
    if richOk then (.produced "weasyprint", [.rich])
    else if engine = "weasyprint" then (.richError, [.rich])
    else (.produced "simple", [.rich, .simple])
  else (.produced "simple", [.simple])

/-- Claim C7: an engine value outside `{auto, simple, weasyprint}` raises the
configuration error before any rendering effect; a pinned `weasyprint` engine
surfaces the rich renderer's failure; in `auto` mode a rich failure silently
falls back to the builtin renderer; and the returned name is always the engine
that actually produced the file. -/
theorem spec_C7 (engine : String) (richOk : Bool)
    (h : ¬ (engine = "auto" ∨ engine = "simple" ∨ engine = "weasyprint")) :
    buildPdf engine richOk = (.configError, [])
    ∧ buildPdf "weasyprint" false = (.richError, [.rich])
    ∧ buildPdf "weasyprint" true = (.produced "weasyprint", [.rich])
    ∧ buildPdf "auto" false = (.produced "simple", [.rich, .simple])
    ∧ buildPdf "auto" true = (.produced "weasyprint", [.rich])
    ∧ buildPdf "simple" richOk = (.produced "simple", [.simple]) := by
  refine ⟨?_, by decide, by decide, by decide, by decide, ?_⟩
  · unfold buildPdf
    rw [if_pos h]
  · cases richOk
    · decide
    · decide

/-- Claim C7 witness: the configuration error at the invalid engine name
`"pdf"`, alongside the four selector outcomes. -/
theorem spec_C7_witness :
    buildPdf "pdf" true = (.configError, [])
    ∧ buildPdf "weasyprint" false = (.richError, [.rich])
    ∧ buildPdf "weasyprint" true = (.produced "weasyprint", [.rich])
    ∧ buildPdf "auto" false = (.produced "simple", [.rich, .simple])
    ∧ buildPdf "auto" true = (.produced "weasyprint", [.rich])
    ∧ buildPdf "simple" true = (.produced "simple", [.simple]) :=
  spec_C7 "pdf" true (by decide)

end EdgarReport
